import Mathlib

/-!
Verification of the engine-abstraction layer of `engine_wrapper.py`
(`create_engine`, `remove_managed_options`, the stats helpers and the two
protocol adapters `UCIEngine` / `XBoardEngine`).

Modelling conventions:
* Python dicts become association lists `List (String × _)` with first-match
  lookup (dict keys are unique, so first-match agrees with dict lookup).
* Millisecond inputs are natural numbers; Python's true division `/ 1000` is
  modelled as exact division in `ℚ` and floor division `// 1000` as `Nat`
  division (Python float rounding is abstracted as exact rational arithmetic).
* Methods whose only observable behaviour is sending protocol lines or
  configuration updates return the list of lines / updates they send;
  operations that can raise (`KeyError`, `TypeError`, missing attributes)
  return `Option`, with `none` for the raised exception.
-/

-- ### Definitions

/-- First-match lookup in an association list with string values, modelling
Python dict lookup (`info[stat]`, `egt_paths[egt_type]`). -/
def lookupS (m : List (String × String)) (k : String) : Option String :=
  (m.find? (fun p => p.1 == k)).map (fun p => p.2)

/-- The first space-delimited token of a string's character list; used to tell
the distinct protocol lines (`name …`, `rating …`, `computer`, `level …`)
apart. -/
def firstWord (s : String) : List Char :=
  s.data.takeWhile (fun c => c != ' ')

/-- The first colon-delimited token of a string's character list; used to tell
the `"<stat>: <value>"` entries of the stats reporter apart. -/
def keyOf (s : String) : List Char :=
  s.data.takeWhile (fun c => c != ':')

/-- Search limits as passed to the engine process `play` call
(`chess.engine.Limit`); fields that a call site does not pass are `none`. -/
structure Limit where
  time : Option ℚ
  white_clock : Option ℚ
  black_clock : Option ℚ
  white_inc : Option ℚ
  black_inc : Option ℚ
  depth : Option ℕ
  nodes : Option ℕ
deriving DecidableEq

/-- The limit passed to `self.engine.play` by `UCIEngine.first_search`
(`engine_wrapper.py` line 86): `chess.engine.Limit(time=movetime / 1000)`,
true division. -/
def UCIEngine.first_search_limit (movetime : ℕ) : Limit :=
  ⟨some ((movetime : ℚ) / 1000), none, none, none, none, none, none⟩

/-- The limit passed to `self.engine.play` by `XBoardEngine.first_search`
(`engine_wrapper.py` line 153): `chess.engine.Limit(time=movetime // 1000)`,
integer floor division. -/
def XBoardEngine.first_search_limit (movetime : ℕ) : Limit :=
  ⟨some ((movetime / 1000 : ℕ) : ℚ), none, none, none, none, none, none⟩

/-- `remove_managed_options` (`engine_wrapper.py` lines 25-29): keeps exactly
the entries whose name the protocol library does not classify as managed.
The classification itself (`chess.engine.Option(key, …).is_managed()`) lives
in the external protocol library, so it is abstracted as a boolean predicate
parameter; the source comprehension `{name: value for (name, value) in
config.items() if not is_managed(name)}` is the filter below. -/
def remove_managed_options (is_managed : String → Bool)
    (config : List (String × String)) : List (String × String) :=
  config.filter (fun p => ! is_managed p.1)

/-- A player as seen in the game metadata (`game.me` / `game.opponent`):
`name` and `title` are nullable strings, `rating` a nullable integer. -/
structure Player where
  name : Option String
  rating : Option ℤ
  title : Option String
deriving DecidableEq

/-- The per-game metadata the adapters read: both players and the initial
clock / increment in integer milliseconds. -/
structure Game where
  me : Player
  opponent : Player
  clock_initial : ℕ
  clock_increment : ℕ
deriving DecidableEq

/-- Python truthiness of a nullable string: `None` and `""` are falsy. -/
def optTruthy : Option String → Bool
  | none => false
  | some s => s != ""

/-- `get_handler_stats` (`engine_wrapper.py` lines 38-44): for each queried
stat name, in order, append `"<stat>: <value>"` when the name is a key of the
last search's metadata mapping, and nothing otherwise. -/
def get_handler_stats (info : List (String × String)) (stats : List String) :
    List String :=
  stats.filterMap (fun stat =>
    match lookupS info stat with
    | some v => some (stat ++ ": " ++ v)
    | none => none)

/-- `UCIEngine.get_stats` (`engine_wrapper.py` lines 113-114): the handler
stats over the UCI field set. -/
def UCIEngine.get_stats (info : List (String × String)) : List String :=
  get_handler_stats info ["depth", "nps", "nodes", "score"]

/-- `XBoardEngine.get_stats` (`engine_wrapper.py` lines 177-178): the handler
stats over the reduced XBoard field set. -/
def XBoardEngine.get_stats (info : List (String × String)) : List String :=
  get_handler_stats info ["depth", "nodes", "score"]

/-- The defaulted rating string of `UCIEngine.get_opponent_info`
(`engine_wrapper.py` line 118): the opponent rating, or the literal string
`"none"` when the rating is `None`. -/
def UCIEngine.opponentRatingStr (g : Game) : String :=
  match g.opponent.rating with
  | some r => toString r
  | none => "none"

/-- The defaulted title string of `UCIEngine.get_opponent_info`
(`engine_wrapper.py` line 119): the opponent title, or `"none"` when the
title is falsy (`None` or the empty string). -/
def UCIEngine.opponentTitleStr (g : Game) : String :=
  match g.opponent.title with
  | none => "none"
  | some t => if t = "" then "none" else t

/-- The player-kind string of `UCIEngine.get_opponent_info`
(`engine_wrapper.py` line 120): `"computer"` when the defaulted title equals
`"BOT"`, else `"human"`. -/
def UCIEngine.playerTypeStr (g : Game) : String :=
  if UCIEngine.opponentTitleStr g = "BOT" then "computer" else "human"

/-- The composed `UCI_Opponent` value
(`engine_wrapper.py` line 121): `f"{title} {rating} {player_type} {name}"`. -/
def UCIEngine.opponentValue (g : Game) (n : String) : String :=
  UCIEngine.opponentTitleStr g ++ " " ++ UCIEngine.opponentRatingStr g ++ " "
    ++ UCIEngine.playerTypeStr g ++ " " ++ n

/-- `UCIEngine.get_opponent_info` (`engine_wrapper.py` lines 116-122),
returned as the list of configuration updates it sends: when the opponent
name is truthy and the engine's option set contains `UCI_Opponent`, one
`engine.configure({"UCI_Opponent": …})` call with the composed value;
otherwise no engine interaction at all (the method reads `game` and
`self.engine.protocol.config` but writes no instance state). -/
def UCIEngine.get_opponent_info (config : List String) (g : Game) :
    List (String × String) :=
  match g.opponent.name with
  | none => []
  | some n =>
    if n = "" then []
    else if "UCI_Opponent" ∈ config then
      [("UCI_Opponent", UCIEngine.opponentValue g n)]
    else []

/-- A value of the XBoard negotiated feature set
(`self.engine.protocol.features`): the protocol stores integer or string
feature values. -/
inductive FeatureValue where
  | int (v : ℤ)
  | str (s : String)
deriving DecidableEq

/-- Python truthiness of a feature value: `0` and `""` are falsy. -/
def FeatureValue.truthy : FeatureValue → Bool
  | .int v => v != 0
  | .str s => s != ""

/-- First-match lookup in the feature mapping. -/
def lookupF (features : List (String × FeatureValue)) (k : String) :
    Option FeatureValue :=
  (features.find? (fun p => p.1 == k)).map (fun p => p.2)

/-- `features.get(key, True)` followed by Python truthiness
(`engine_wrapper.py` line 181): an absent feature defaults to allowed. -/
def featureAllows (features : List (String × FeatureValue)) (k : String) :
    Bool :=
  match lookupF features k with
  | none => true
  | some v => v.truthy

/-- The title prefix of the XBoard `name` line (`engine_wrapper.py`
line 182): `game.opponent.title + " "` when the title is truthy, else `""`. -/
def xbTitlePart (g : Game) : String :=
  match g.opponent.title with
  | none => ""
  | some t => if t = "" then "" else t ++ " "

/-- The `name …` lines sent by `XBoardEngine.get_opponent_info`
(`engine_wrapper.py` lines 181-183): one `f"name {title}{name}"` line when
the opponent name is truthy and the `name` feature is absent or truthy. -/
def xbNameLines (features : List (String × FeatureValue)) (g : Game) :
    List String :=
  match g.opponent.name with
  | none => []
  | some n =>
    if n = "" then []
    else if featureAllows features "name" then ["name " ++ (xbTitlePart g ++ n)]
    else []

/-- The `rating …` lines sent by `XBoardEngine.get_opponent_info`
(`engine_wrapper.py` lines 184-185): one `f"rating {mine} {theirs}"` line
when both ratings are present. -/
def xbRatingLines (g : Game) : List String :=
  match g.me.rating, g.opponent.rating with
  | some a, some b => ["rating " ++ (toString a ++ (" " ++ toString b))]
  | _, _ => []

/-- The `computer` line sent by `XBoardEngine.get_opponent_info`
(`engine_wrapper.py` lines 186-187): sent exactly when the opponent title
equals `"BOT"`. -/
def xbComputerLines (g : Game) : List String :=
  if g.opponent.title = some "BOT" then ["computer"] else []

/-- `XBoardEngine.get_opponent_info` (`engine_wrapper.py` lines 180-187),
returned as the list of protocol lines it sends, in source order. -/
def XBoardEngine.get_opponent_info (features : List (String × FeatureValue))
    (g : Game) : List String :=
  xbNameLines features g ++ xbRatingLines g ++ xbComputerLines g

/-- The mutable state of an `XBoardEngine` instance that the time-control
methods touch: `minutes`, `seconds` and `inc` are `none` until
`set_time_control` assigns them (reading them before that raises
`AttributeError` in the source), and `time_control_sent` is the one-shot
flag set in `__init__`. -/
structure XBoardState where
  minutes : Option ℕ
  seconds : Option ℕ
  inc : Option ℕ
  time_control_sent : Bool
deriving DecidableEq

/-- The time-control state right after `XBoardEngine.__init__`
(`engine_wrapper.py` line 139): `time_control_sent = False` and the clock
attributes not yet assigned. -/
def XBoardEngine.initState : XBoardState :=
  ⟨none, none, none, false⟩

/-- `XBoardEngine.set_time_control` (`engine_wrapper.py` lines 141-144):
records minutes, seconds and increment by integer division from the game's
millisecond clock values; sends nothing and leaves the flag unchanged. -/
def XBoardEngine.set_time_control (g : Game) (st : XBoardState) : XBoardState :=
  ⟨some (g.clock_initial / 1000 / 60), some (g.clock_initial / 1000 % 60),
    some (g.clock_increment / 1000), st.time_control_sent⟩

/-- The `level` command line sent by `XBoardEngine.send_time`
(`engine_wrapper.py` line 147): `f"level 0 {minutes}:{seconds} {inc}"`. -/
def levelLine (m s i : ℕ) : String :=
  "level 0 " ++ toString m ++ ":" ++ toString s ++ " " ++ toString i

/-- `XBoardEngine.send_time` (`engine_wrapper.py` lines 146-148): sends the
`level` line and sets `time_control_sent` to true; `none` models the
`AttributeError` raised when `set_time_control` has not run yet. The result
pairs the new state with the lines sent. -/
def XBoardEngine.send_time (st : XBoardState) :
    Option (XBoardState × List String) :=
  match st.minutes, st.seconds, st.inc with
  | some m, some s, some i =>
    some (⟨some m, some s, some i, true⟩, [levelLine m s i])
  | _, _, _ => none

/-- The time-control behaviour of `XBoardEngine.search_with_ponder`
(`engine_wrapper.py` lines 158-160): call `send_time` first when
`time_control_sent` is still false, otherwise send no time-control line.
(The subsequent `play` call is engine interaction with no effect on this
state.) -/
def XBoardEngine.search_with_ponder (st : XBoardState) :
    Option (XBoardState × List String) :=
  if st.time_control_sent then some (st, [])
  else XBoardEngine.send_time st

/-- A sequence of `n` consecutive `search_with_ponder` calls on one adapter
instance, accumulating every time-control line sent. -/
def runSearches : ℕ → XBoardState → Option (XBoardState × List String)
  | 0, st => some (st, [])
  | n + 1, st =>
    match XBoardEngine.search_with_ponder st with
    | none => none
    | some (st2, ls) =>
      match runSearches n st2 with
      | none => none
      | some (st3, ls2) => some (st3, ls ++ ls2)

/-- Helper for `splitComma`: split a character list at every comma,
accumulating the current segment in reverse. -/
def splitCommaAux : List Char → List Char → List String
  | [], acc => [String.mk acc.reverse]
  | c :: rest, acc =>
    if c = ',' then String.mk acc.reverse :: splitCommaAux rest []
    else splitCommaAux rest (c :: acc)

/-- Python's `str.split(",")` for the single-character separator used on the
`egt` feature value (`engine_wrapper.py` line 134); `"" → [""]`,
`"a,b" → ["a", "b"]`. -/
def splitComma (s : String) : List String :=
  splitCommaAux s.data []

/-- The engine-advertised tablebase types (`engine_wrapper.py` line 134):
`features["egt"].split(",") if "egt" in features else []`. A non-string
`egt` feature value would make `.split` raise `AttributeError`, modelled as
`none`; an absent `egt` feature is the silent empty list. -/
def egtTypesFromEngine (features : List (String × FeatureValue)) :
    Option (List String) :=
  match lookupF features "egt" with
  | none => some []
  | some (.str s) => some (splitComma s)
  | some (.int _) => none

/-- The `egtpath <type>` entries added by the loop in `XBoardEngine.__init__`
(`engine_wrapper.py` lines 135-136): one entry per engine-advertised type,
whose value is looked up in the caller's `egtpath` mapping with a plain
subscript — a type missing from that mapping raises `KeyError`, modelled as
`none`. -/
def egtExtra (egt_paths : List (String × String)) :
    List String → Option (List (String × String))
  | [] => some []
  | t :: ts =>
    match lookupS egt_paths t with
    | none => none
    | some p =>
      match egtExtra egt_paths ts with
      | none => none
      | some l => some (("egtpath " ++ t, p) :: l)

/-- The option mapping `XBoardEngine.__init__` passes to `engine.configure`
(`engine_wrapper.py` lines 132-137): the caller options with the `egtpath`
block popped out (`rest`), extended in place with one `egtpath <type>` entry
per engine-advertised tablebase type. -/
def xboardInitOptions (features : List (String × FeatureValue))
    (egt_paths : List (String × String)) (rest : List (String × String)) :
    Option (List (String × String)) :=
  match egtTypesFromEngine features with
  | none => none
  | some ts =>
    match egtExtra egt_paths ts with
    | none => none
    | some extra => some (rest ++ extra)

/-- The two adapter variants `create_engine` can instantiate. -/
inductive EngineKind where
  | uci
  | xboard
deriving DecidableEq

/-- What `create_engine` hands to the chosen adapter constructor: the kind,
the command vector, the managed-filtered protocol options and the
stderr-suppression flag. -/
structure CreatedSpec where
  kind : EngineKind
  commands : List String
  options : List (String × String)
  silence_stderr : Bool
deriving DecidableEq

/-- The `"engine"` block of the configuration mapping consumed by
`create_engine`: required `dir` and `name`, the optional `protocol` key
(`None` when absent), the launch flags, the stderr flag and the
protocol-specific `"<protocol>_options"` blocks. -/
structure EngineCfg where
  dir : String
  name : String
  protocol : Option String
  engine_options : List (String × String)
  silence_stderr : Bool
  option_blocks : List (String × List (String × String))

/-- First-match lookup of a protocol options block. -/
def lookupBlock (blocks : List (String × List (String × String)))
    (k : String) : Option (List (String × String)) :=
  (blocks.find? (fun p => p.1 == k)).map (fun p => p.2)

/-- `os.path.join(cfg["dir"], cfg["name"])` for the cases the launcher uses:
an absolute `name` wins, an empty or slash-terminated `dir` is not given an
extra separator. -/
def joinPath (d n : String) : String :=
  if n.data.head? = some '/' then n
  else if d = "" then n
  else if d.data.getLast? = some '/' then d ++ n
  else d ++ "/" ++ n

/-- `create_engine` (`engine_wrapper.py` lines 8-22) up to the adapter
constructor call: builds the command vector `[dir/name, "--key=value"…]`,
reads the optional `protocol` key, strips managed options from the
`"<protocol>_options"` block (absent block → `{}`), and picks the XBoard
adapter exactly for `protocol == "xboard"`. When the `protocol` key is
absent, the source evaluates `None + "_options"` and raises `TypeError`,
modelled as `none`. -/
def create_engine (is_managed : String → Bool) (cfg : EngineCfg) :
    Option CreatedSpec :=
  let engine_path := joinPath cfg.dir cfg.name
  let commands :=
    engine_path :: cfg.engine_options.map (fun kv => "--" ++ kv.1 ++ "=" ++ kv.2)
  match cfg.protocol with
  | none => none
  | some p =>
    let options :=
      remove_managed_options is_managed
        ((lookupBlock cfg.option_blocks (p ++ "_options")).getD [])
    some ⟨if p = "xboard" then EngineKind.xboard else EngineKind.uci,
      commands, options, cfg.silence_stderr⟩

-- ### Theorems

/-- Two strings with equal underlying character lists are equal. -/
theorem str_ext {s t : String} (h : s.data = t.data) : s = t := by
  cases s; cases t; exact congrArg String.mk h

/-- The character list of a concatenation is the concatenation of the
character lists. -/
theorem str_data_append (s t : String) : (s ++ t).data = s.data ++ t.data :=
  String.data_append s t

/-- Appending on the left of a string concatenation is cancellative. -/
theorem str_append_left_cancel {l a b : String} (h : l ++ a = l ++ b) : a = b := by
  apply str_ext
  have h2 : l.data ++ a.data = l.data ++ b.data := by
    rw [← str_data_append, ← str_data_append, h]
  exact List.append_cancel_left h2

/-- `takeWhile` grabs exactly the prefix before the first failing element when
that prefix satisfies the predicate and is followed by a failing element. -/
theorem takeWhile_middle (p : Char → Bool) :
    ∀ (l1 : List Char) (c : Char) (l2 : List Char),
      (∀ a ∈ l1, p a = true) → p c = false →
      (l1 ++ c :: l2).takeWhile p = l1
  | [], c, l2, _, hc => by simp [List.takeWhile, hc]
  | a :: t, c, l2, h, hc => by
    have ha : p a = true := h a (by simp)
    have ht := takeWhile_middle p t c l2 (fun b hb => h b (by simp [hb])) hc
    simp [List.takeWhile, ha, ht]

/-- The first word of `w ++ x` is `w`'s own character list whenever `w` is
space-free and `x` starts with a space character. -/
theorem firstWord_append (w : String) (x : List Char) (hw : ' ' ∉ w.data) :
    firstWord ⟨w.data ++ ' ' :: x⟩ = w.data := by
  unfold firstWord
  exact takeWhile_middle _ w.data ' ' x
    (fun a ha => by
      simp only [bne_iff_ne, ne_eq, decide_eq_true_eq]
      intro hEq
      exact hw (hEq ▸ ha))
    (by simp)

/-- The colon-key of `w ++ x` is `w`'s own character list whenever `w` is
colon-free and `x` starts with a colon character. -/
theorem keyOf_append (w : String) (x : List Char) (hw : ':' ∉ w.data) :
    keyOf ⟨w.data ++ ':' :: x⟩ = w.data := by
  unfold keyOf
  exact takeWhile_middle _ w.data ':' x
    (fun a ha => by
      simp only [bne_iff_ne, ne_eq, decide_eq_true_eq]
      intro hEq
      exact hw (hEq ▸ ha))
    (by simp)

/-- C1: for every non-negative integer millisecond `movetime`, the UCI
adapter's `first_search` limit carries exactly `movetime / 1000` seconds
(true division, sub-second precision preserved), the XBoard adapter's limit
carries exactly `movetime // 1000` seconds (floor division), and the two
limits agree exactly when `movetime` is a multiple of `1000`. -/
theorem first_search_limits_divergence (movetime : ℕ) :
    (UCIEngine.first_search_limit movetime).time = some ((movetime : ℚ) / 1000)
    ∧ (XBoardEngine.first_search_limit movetime).time = some ((movetime / 1000 : ℕ) : ℚ)
    ∧ (UCIEngine.first_search_limit movetime = XBoardEngine.first_search_limit movetime
        ↔ movetime % 1000 = 0) := by
  refine ⟨rfl, rfl, ?_⟩
  unfold UCIEngine.first_search_limit XBoardEngine.first_search_limit
  simp only [Limit.mk.injEq, Option.some_inj, and_true]
  constructor
  · intro h
    have h1000 : (1000 : ℚ) ≠ 0 := by norm_num
    have h2 : (movetime : ℚ) = ((movetime / 1000 : ℕ) : ℚ) * 1000 :=
      (div_eq_iff h1000).mp h
    have h3 : (movetime : ℚ) = ((movetime / 1000 * 1000 : ℕ) : ℚ) := by
      push_cast
      exact h2
    have h4 : movetime = movetime / 1000 * 1000 := Nat.cast_injective h3
    omega
  · intro h
    obtain ⟨k, rfl⟩ := Nat.dvd_of_mod_eq_zero h
    rw [Nat.mul_div_cancel_left k (by norm_num)]
    push_cast
    rw [mul_comm]
    rw [mul_div_assoc]
    norm_num

/-- C3: `remove_managed_options` returns exactly the restriction of its input
to non-managed keys: an entry is in the result precisely when it is in the
input with a key not classified as managed (so managed keys are absent,
non-managed keys keep their value, and a key the classifier does not mark as
managed is kept — fail-open); the function is pure (a Lean function, no side
effects) and idempotent. -/
theorem remove_managed_options_spec (is_managed : String → Bool)
    (config : List (String × String)) :
    (∀ kv : String × String,
        kv ∈ remove_managed_options is_managed config
          ↔ kv ∈ config ∧ is_managed kv.1 = false)
    ∧ remove_managed_options is_managed (remove_managed_options is_managed config)
        = remove_managed_options is_managed config := by
  constructor
  · intro kv
    simp [remove_managed_options, List.mem_filter]
  · apply List.filter_eq_self.mpr
    intro a ha
    exact (List.mem_filter.mp ha).2


/-- C9: with a null or empty opponent name, the UCI adapter's
`get_opponent_info` performs no engine interaction at all — no configuration
update is sent (and the function, like the source method, touches no other
state) — regardless of whether `UCI_Opponent` is in the engine's
configuration set. -/
theorem uci_opponent_info_needs_name (config : List String) (g : Game)
    (h : g.opponent.name = none ∨ g.opponent.name = some "") :
    UCIEngine.get_opponent_info config g = [] := by
  unfold UCIEngine.get_opponent_info
  rcases h with h | h <;> rw [h]
  simp

/-- Witness for C9: a game with a null opponent name produces no
configuration update even though `UCI_Opponent` is supported. -/
theorem uci_opponent_info_needs_name_witness :
    UCIEngine.get_opponent_info ["UCI_Opponent"]
      ⟨⟨none, none, none⟩, ⟨none, some 1500, none⟩, 60000, 0⟩ = [] :=
  uci_opponent_info_needs_name ["UCI_Opponent"] _ (Or.inl rfl)

/-- Counterexample to C4 as stated: a game whose opponent-identity capability
is negotiated (`UCI_Opponent` is in the configuration set) but whose opponent
name is null gets no configuration update at all, so the capability alone
does not imply that the composed value is sent. -/
theorem uci_opponent_info_capability_not_sufficient :
    ("UCI_Opponent" ∈ ["UCI_Opponent"])
    ∧ UCIEngine.get_opponent_info ["UCI_Opponent"]
        ⟨⟨none, none, none⟩, ⟨none, some 1500, none⟩, 60000, 0⟩ = [] :=
  ⟨by decide, rfl⟩

/-- The defaulted title string equals `"BOT"` exactly when the opponent title
is literally `"BOT"`. -/
theorem opponentTitleStr_eq_BOT (g : Game) :
    UCIEngine.opponentTitleStr g = "BOT" ↔ g.opponent.title = some "BOT" := by
  unfold UCIEngine.opponentTitleStr
  cases h : g.opponent.title with
  | none => decide
  | some t =>
    show (if t = "" then "none" else t) = "BOT" ↔ some t = some "BOT"
    by_cases ht : t = ""
    · subst ht
      rw [if_pos rfl]
      decide
    · rw [if_neg ht]
      simp

/-- C4 (amended): when the opponent-identity capability is negotiated and
the opponent name is present and non-empty, `UCIEngine.get_opponent_info`
sends exactly one configuration update, with key `UCI_Opponent` and value
`"<title> <rating> <player_type> <name>"`, where the rating defaults to the
literal `"none"` when absent, the title defaults to `"none"` when absent,
and the player type is `"computer"` exactly when the opponent title equals
`"BOT"` (else `"human"`). -/
theorem uci_opponent_info_value (config : List String) (g : Game) (n : String)
    (hc : "UCI_Opponent" ∈ config) (hn : g.opponent.name = some n)
    (hne : n ≠ "") :
    UCIEngine.get_opponent_info config g
        = [("UCI_Opponent", UCIEngine.opponentValue g n)]
    ∧ (g.opponent.rating = none → UCIEngine.opponentRatingStr g = "none")
    ∧ (g.opponent.title = none → UCIEngine.opponentTitleStr g = "none")
    ∧ (UCIEngine.playerTypeStr g = "computer" ↔ g.opponent.title = some "BOT") := by
  refine ⟨?_, ?_, ?_, ?_⟩
  · unfold UCIEngine.get_opponent_info
    rw [hn]
    show (if n = "" then []
      else if "UCI_Opponent" ∈ config then
        [("UCI_Opponent", UCIEngine.opponentValue g n)]
      else []) = [("UCI_Opponent", UCIEngine.opponentValue g n)]
    rw [if_neg hne, if_pos hc]
  · intro h
    unfold UCIEngine.opponentRatingStr
    rw [h]
  · intro h
    unfold UCIEngine.opponentTitleStr
    rw [h]
  · unfold UCIEngine.playerTypeStr
    constructor
    · intro h
      by_cases hb : UCIEngine.opponentTitleStr g = "BOT"
      · exact (opponentTitleStr_eq_BOT g).mp hb
      · rw [if_neg hb] at h
        exact absurd h (by decide)
    · intro h
      rw [if_pos ((opponentTitleStr_eq_BOT g).mpr h)]

/-- Witness for C4 (amended): for opponent
`{name: "Magnus", rating: None, title: "BOT"}` with the capability
negotiated, the composed configuration value is
`"BOT none computer Magnus"`. -/
theorem uci_opponent_info_value_witness :
    UCIEngine.get_opponent_info ["UCI_Opponent"]
        ⟨⟨none, none, none⟩, ⟨some "Magnus", none, some "BOT"⟩, 60000, 0⟩
      = [("UCI_Opponent", "BOT none computer Magnus")] := by
  have h := (uci_opponent_info_value ["UCI_Opponent"]
    ⟨⟨none, none, none⟩, ⟨some "Magnus", none, some "BOT"⟩, 60000, 0⟩ "Magnus"
    (by decide) rfl (by decide)).1
  rw [h]
  decide

/-- Once the time-control flag is set, any number of further
`search_with_ponder` calls sends no time-control line and leaves the state
unchanged. -/
theorem runSearches_after_sent (n : ℕ) (st : XBoardState)
    (h : st.time_control_sent = true) :
    runSearches n st = some (st, []) := by
  induction n with
  | zero => rfl
  | succ n ih =>
    simp [runSearches, XBoardEngine.search_with_ponder, h, ih]

/-- C2: the `time_control_sent` flag is false right after construction,
`send_time` sets it to true, `search_with_ponder` invokes `send_time`
exactly when the flag is false at the time of the call, and over any
non-empty sequence of `search_with_ponder` calls (after `set_time_control`)
the `level` command is transmitted exactly once — by the first call. -/
theorem xboard_time_control_once :
    XBoardEngine.initState.time_control_sent = false
    ∧ (∀ st st2 ls, XBoardEngine.send_time st = some (st2, ls)
        → st2.time_control_sent = true)
    ∧ (∀ st, XBoardEngine.search_with_ponder st
        = if st.time_control_sent then some (st, [])
          else XBoardEngine.send_time st)
    ∧ (∀ g n, runSearches (n + 1)
          (XBoardEngine.set_time_control g XBoardEngine.initState)
        = some (⟨some (g.clock_initial / 1000 / 60),
            some (g.clock_initial / 1000 % 60),
            some (g.clock_increment / 1000), true⟩,
            [levelLine (g.clock_initial / 1000 / 60)
              (g.clock_initial / 1000 % 60) (g.clock_increment / 1000)])) := by
  refine ⟨rfl, ?_, fun st => rfl, ?_⟩
  · intro st st2 ls h
    rcases st with ⟨m, s, i, f⟩
    cases m <;> cases s <;> cases i <;>
      simp_all [XBoardEngine.send_time]
    rw [← h.1]
  · intro g n
    have h1 : XBoardEngine.search_with_ponder
        (XBoardEngine.set_time_control g XBoardEngine.initState)
        = some (⟨some (g.clock_initial / 1000 / 60),
            some (g.clock_initial / 1000 % 60),
            some (g.clock_increment / 1000), true⟩,
            [levelLine (g.clock_initial / 1000 / 60)
              (g.clock_initial / 1000 % 60) (g.clock_increment / 1000)]) := rfl
    have h2 := runSearches_after_sent n
      ⟨some (g.clock_initial / 1000 / 60), some (g.clock_initial / 1000 % 60),
        some (g.clock_increment / 1000), true⟩ rfl
    simp [runSearches, h1, h2]

/-- Witness for C2: applying the flag-transition conjunct at a concrete
state whose time control has been recorded. -/
theorem xboard_time_control_once_witness :
    (XBoardState.mk (some 1) (some 0) (some 0) true).time_control_sent = true :=
  xboard_time_control_once.2.1 ⟨some 1, some 0, some 0, false⟩
    ⟨some 1, some 0, some 0, true⟩ [levelLine 1 0 0] rfl

/-- The colon-key of a stats entry `"<stat>: <value>"` is the stat name,
provided the stat name itself contains no colon. -/
theorem keyOf_statEntry (s v : String) (hs : ':' ∉ s.data) :
    keyOf (s ++ ": " ++ v) = s.data := by
  have hdata : (s ++ ": " ++ v) = String.mk (s.data ++ ':' :: ' ' :: v.data) := by
    apply str_ext
    simp [str_data_append, List.append_assoc]
  rw [hdata]
  exact keyOf_append s (' ' :: v.data) hs

/-- Two equal stats entries with colon-free stat names have the same stat
name. -/
theorem statEntry_key_inj (s t v w : String) (hs : ':' ∉ s.data)
    (ht : ':' ∉ t.data) (h : s ++ ": " ++ v = t ++ ": " ++ w) : s = t := by
  have h2 := congrArg keyOf h
  rw [keyOf_statEntry s v hs, keyOf_statEntry t w ht] at h2
  exact str_ext h2

/-- The stats reporter produces an entry for a (colon-free) stat name exactly
when the name is queried and present in the metadata mapping. -/
theorem stats_entry_mem (info : List (String × String)) (stats : List String)
    (s : String) (hstats : ∀ t ∈ stats, ':' ∉ t.data) (hs : ':' ∉ s.data) :
    (∃ v, (s ++ ": " ++ v) ∈ get_handler_stats info stats)
      ↔ s ∈ stats ∧ (lookupS info s).isSome = true := by
  constructor
  · rintro ⟨v, hv⟩
    unfold get_handler_stats at hv
    obtain ⟨t, htmem, hft⟩ := List.mem_filterMap.mp hv
    cases hl : lookupS info t with
    | none =>
      rw [hl] at hft
      exact absurd hft (by simp)
    | some w =>
      rw [hl] at hft
      simp only [Option.some.injEq] at hft
      have hts : t = s := statEntry_key_inj t s w v (hstats t htmem) hs hft
      subst hts
      rw [hl]
      exact ⟨htmem, rfl⟩
  · rintro ⟨hmem, hsome⟩
    obtain ⟨w, hw⟩ := Option.isSome_iff_exists.mp hsome
    refine ⟨w, ?_⟩
    unfold get_handler_stats
    apply List.mem_filterMap.mpr
    exact ⟨s, hmem, by rw [hw]⟩

/-- C6: for either adapter variant, `get_stats` contains a
`"<stat>: <value>"` entry for a queried stat name exactly when that name is
a key of the last-search metadata mapping — an absent name yields no entry
and no default (and the extraction is a total function, so it never
raises). -/
theorem get_stats_entries_iff (info : List (String × String)) (s : String) :
    (s ∈ ["depth", "nps", "nodes", "score"]
      → ((∃ v, (s ++ ": " ++ v) ∈ UCIEngine.get_stats info)
          ↔ (lookupS info s).isSome = true))
    ∧ (s ∈ ["depth", "nodes", "score"]
      → ((∃ v, (s ++ ": " ++ v) ∈ XBoardEngine.get_stats info)
          ↔ (lookupS info s).isSome = true)) := by
  constructor
  · intro hmem
    have hs : ':' ∉ s.data := by
      have h2 := hmem
      simp only [List.mem_cons, List.not_mem_nil, or_false] at h2
      rcases h2 with rfl | rfl | rfl | rfl <;> decide
    exact (stats_entry_mem info ["depth", "nps", "nodes", "score"] s
      (by decide) hs).trans (and_iff_right hmem)
  · intro hmem
    have hs : ':' ∉ s.data := by
      have h2 := hmem
      simp only [List.mem_cons, List.not_mem_nil, or_false] at h2
      rcases h2 with rfl | rfl | rfl <;> decide
    exact (stats_entry_mem info ["depth", "nodes", "score"] s
      (by decide) hs).trans (and_iff_right hmem)

/-- Witness for C6: a metadata mapping containing only `depth` yields a
`depth` entry, and one missing `nodes` yields no `nodes` entry. -/
theorem get_stats_entries_iff_witness :
    (∃ v, ("depth" ++ ": " ++ v) ∈ UCIEngine.get_stats [("depth", "20")])
    ∧ ¬ (∃ v, ("nodes" ++ ": " ++ v) ∈ XBoardEngine.get_stats [("depth", "20")]) :=
  ⟨((get_stats_entries_iff [("depth", "20")] "depth").1 (by decide)).mpr
      (by decide),
    fun h => by
      have h2 := ((get_stats_entries_iff [("depth", "20")] "nodes").2
        (by decide)).mp h
      exact absurd h2 (by decide)⟩

/-- A `name` line is never equal to a `rating` line. -/
theorem name_line_ne_rating_line (x y : String) :
    "name " ++ x ≠ "rating " ++ y := by
  intro h
  have h2 := congrArg firstWord h
  have hn : firstWord ("name " ++ x) = "name".data :=
    firstWord_append "name" x.data (by decide)
  have hr : firstWord ("rating " ++ y) = "rating".data :=
    firstWord_append "rating" y.data (by decide)
  rw [hn, hr] at h2
  exact absurd h2 (by decide)

/-- A `name` line is never equal to the literal `computer` line. -/
theorem name_line_ne_computer (x : String) : "name " ++ x ≠ "computer" := by
  intro h
  have h2 := congrArg firstWord h
  have hn : firstWord ("name " ++ x) = "name".data :=
    firstWord_append "name" x.data (by decide)
  have hc : firstWord "computer" = "computer".data := by decide
  rw [hn, hc] at h2
  exact absurd h2 (by decide)

/-- A `rating` line is never equal to the literal `computer` line. -/
theorem rating_line_ne_computer (y : String) : "rating " ++ y ≠ "computer" := by
  intro h
  have h2 := congrArg firstWord h
  have hr : firstWord ("rating " ++ y) = "rating".data :=
    firstWord_append "rating" y.data (by decide)
  have hc : firstWord "computer" = "computer".data := by decide
  rw [hr, hc] at h2
  exact absurd h2 (by decide)

/-- No `name` line occurs among the rating lines. -/
theorem name_not_in_ratingLines (x : String) (g : Game) :
    ("name " ++ x) ∉ xbRatingLines g := by
  unfold xbRatingLines
  cases g.me.rating <;> cases g.opponent.rating <;> simp
  exact name_line_ne_rating_line x _

/-- No `name` line occurs among the computer lines. -/
theorem name_not_in_computerLines (x : String) (g : Game) :
    ("name " ++ x) ∉ xbComputerLines g := by
  unfold xbComputerLines
  by_cases h : g.opponent.title = some "BOT" <;> simp [h]
  exact name_line_ne_computer x

/-- No `rating` line occurs among the name lines. -/
theorem rating_not_in_nameLines (x : String)
    (features : List (String × FeatureValue)) (g : Game) :
    ("rating " ++ x) ∉ xbNameLines features g := by
  unfold xbNameLines
  cases g.opponent.name with
  | none => simp
  | some n =>
    by_cases hn : n = "" <;> simp [hn]
    by_cases hf : featureAllows features "name" = true <;> simp [hf]
    exact fun h => name_line_ne_rating_line _ x h.symm

/-- No `rating` line occurs among the computer lines. -/
theorem rating_not_in_computerLines (x : String) (g : Game) :
    ("rating " ++ x) ∉ xbComputerLines g := by
  unfold xbComputerLines
  by_cases h : g.opponent.title = some "BOT" <;> simp [h]
  exact rating_line_ne_computer x

/-- The literal `computer` line never occurs among the name lines. -/
theorem computer_not_in_nameLines (features : List (String × FeatureValue))
    (g : Game) : "computer" ∉ xbNameLines features g := by
  unfold xbNameLines
  cases g.opponent.name with
  | none => simp
  | some n =>
    by_cases hn : n = "" <;> simp [hn]
    by_cases hf : featureAllows features "name" = true <;> simp [hf]
    exact fun h => name_line_ne_computer _ h.symm

/-- The literal `computer` line never occurs among the rating lines. -/
theorem computer_not_in_ratingLines (g : Game) :
    "computer" ∉ xbRatingLines g := by
  unfold xbRatingLines
  cases g.me.rating <;> cases g.opponent.rating <;> simp
  exact fun h => rating_line_ne_computer _ h.symm

/-- A `name` line is among the name lines exactly when the opponent name is
truthy and the `name` feature allows it. -/
theorem mem_xbNameLines_iff (features : List (String × FeatureValue))
    (g : Game) :
    (∃ x, ("name " ++ x) ∈ xbNameLines features g)
      ↔ (optTruthy g.opponent.name = true
          ∧ featureAllows features "name" = true) := by
  unfold xbNameLines optTruthy
  cases g.opponent.name with
  | none => simp
  | some n =>
    by_cases hn : n = ""
    · subst hn
      simp
    · by_cases hf : featureAllows features "name" = true
      · simp only [if_neg hn, if_pos hf, List.mem_singleton, hf, and_true]
        constructor
        · intro _
          exact bne_iff_ne.mpr hn
        · intro _
          exact ⟨xbTitlePart g ++ n, by simp⟩
      · simp [hn, hf]

/-- A `rating` line is among the rating lines exactly when both ratings are
present. -/
theorem mem_xbRatingLines_iff (g : Game) :
    (∃ x, ("rating " ++ x) ∈ xbRatingLines g)
      ↔ (g.me.rating.isSome = true ∧ g.opponent.rating.isSome = true) := by
  unfold xbRatingLines
  cases g.me.rating with
  | none => cases g.opponent.rating <;> simp
  | some a =>
    cases g.opponent.rating with
    | none => simp
    | some b =>
      simp only [List.mem_singleton, Option.isSome_some, and_self, iff_true]
      exact ⟨toString a ++ (" " ++ toString b), rfl⟩

/-- The `computer` line is among the computer lines exactly when the
opponent title equals `"BOT"`. -/
theorem mem_xbComputerLines_iff (g : Game) :
    ("computer" ∈ xbComputerLines g) ↔ g.opponent.title = some "BOT" := by
  unfold xbComputerLines
  by_cases h : g.opponent.title = some "BOT" <;> simp [h]

/-- Characterization of the three lines `XBoardEngine.get_opponent_info`
sends: each one is present exactly under its own condition, independent of
the other two. -/
theorem xb_opponent_lines_iff (features : List (String × FeatureValue))
    (g : Game) :
    ((∃ x, ("name " ++ x) ∈ XBoardEngine.get_opponent_info features g)
        ↔ (optTruthy g.opponent.name = true
            ∧ featureAllows features "name" = true))
    ∧ ((∃ x, ("rating " ++ x) ∈ XBoardEngine.get_opponent_info features g)
        ↔ (g.me.rating.isSome = true ∧ g.opponent.rating.isSome = true))
    ∧ (("computer" ∈ XBoardEngine.get_opponent_info features g)
        ↔ g.opponent.title = some "BOT") := by
  unfold XBoardEngine.get_opponent_info
  refine ⟨?_, ?_, ?_⟩
  · rw [← mem_xbNameLines_iff features g]
    constructor
    · rintro ⟨x, hx⟩
      rcases List.mem_append.mp hx with h | h
      · rcases List.mem_append.mp h with h2 | h2
        · exact ⟨x, h2⟩
        · exact absurd h2 (name_not_in_ratingLines x g)
      · exact absurd h (name_not_in_computerLines x g)
    · rintro ⟨x, hx⟩
      exact ⟨x, List.mem_append.mpr (Or.inl (List.mem_append.mpr (Or.inl hx)))⟩
  · rw [← mem_xbRatingLines_iff g]
    constructor
    · rintro ⟨x, hx⟩
      rcases List.mem_append.mp hx with h | h
      · rcases List.mem_append.mp h with h2 | h2
        · exact absurd h2 (rating_not_in_nameLines x features g)
        · exact ⟨x, h2⟩
      · exact absurd h (rating_not_in_computerLines x g)
    · rintro ⟨x, hx⟩
      exact ⟨x, List.mem_append.mpr (Or.inl (List.mem_append.mpr (Or.inr hx)))⟩
  · rw [← mem_xbComputerLines_iff g]
    constructor
    · intro hx
      rcases List.mem_append.mp hx with h | h
      · rcases List.mem_append.mp h with h2 | h2
        · exact absurd h2 (computer_not_in_nameLines features g)
        · exact absurd h2 (computer_not_in_ratingLines g)
      · exact h
    · intro hx
      exact List.mem_append.mpr (Or.inr hx)

/-- Counterexample to C5 as stated: with an absent opponent name the
negotiated feature set still allows a name line (the `name` feature defaults
to allowed), yet `XBoardEngine.get_opponent_info` sends no line at all — so
the name line's presence does not depend only on the feature-set
condition. -/
theorem xboard_name_line_not_feature_only :
    featureAllows [] "name" = true
    ∧ XBoardEngine.get_opponent_info []
        ⟨⟨none, none, none⟩, ⟨none, none, none⟩, 0, 0⟩ = [] :=
  ⟨rfl, rfl⟩

/-- C5 (amended): `XBoardEngine.get_opponent_info` sends up to three lines,
each governed by its own independent condition: a `name` line exactly when
the opponent name is present and non-empty AND the feature set allows
receiving a name, a `rating` line exactly when both ratings are present, and
the literal `computer` line exactly when the opponent title equals `"BOT"`;
any subset of the conditions may hold simultaneously. -/
theorem xboard_opponent_lines_independent
    (features : List (String × FeatureValue)) (g : Game) :
    ((∃ x, ("name " ++ x) ∈ XBoardEngine.get_opponent_info features g)
        ↔ (optTruthy g.opponent.name = true
            ∧ featureAllows features "name" = true))
    ∧ ((∃ x, ("rating " ++ x) ∈ XBoardEngine.get_opponent_info features g)
        ↔ (g.me.rating.isSome = true ∧ g.opponent.rating.isSome = true))
    ∧ (("computer" ∈ XBoardEngine.get_opponent_info features g)
        ↔ g.opponent.title = some "BOT") :=
  xb_opponent_lines_iff features g

/-- C10: with a present, non-empty opponent name, the XBoard adapter's
permission to send the `name` line is fail-open: a feature set with no
`name` entry at all still yields the name line, and the line is suppressed
exactly when the feature set explicitly maps `name` to a falsy value — so a
present truthy `name` entry also lets the line through, and suppression
implies an explicitly falsy entry. -/
theorem xboard_name_feature_fail_open
    (features : List (String × FeatureValue)) (g : Game) (n : String)
    (hn : g.opponent.name = some n) (hne : n ≠ "") :
    (lookupF features "name" = none
      → ∃ x, ("name " ++ x) ∈ XBoardEngine.get_opponent_info features g)
    ∧ ((¬ ∃ x, ("name " ++ x) ∈ XBoardEngine.get_opponent_info features g)
      ↔ ∃ v, lookupF features "name" = some v ∧ v.truthy = false) := by
  have hchar := (xb_opponent_lines_iff features g).1
  have htr : optTruthy g.opponent.name = true := by
    rw [hn]
    exact bne_iff_ne.mpr hne
  have hsent : (∃ x, ("name " ++ x) ∈ XBoardEngine.get_opponent_info features g)
      ↔ featureAllows features "name" = true :=
    hchar.trans (and_iff_right htr)
  constructor
  · intro habs
    apply hsent.mpr
    unfold featureAllows
    rw [habs]
  · rw [hsent]
    constructor
    · intro hnot
      cases hl : lookupF features "name" with
      | none =>
        exfalso
        apply hnot
        unfold featureAllows
        rw [hl]
      | some v =>
        refine ⟨v, rfl, ?_⟩
        cases htv : v.truthy with
        | false => rfl
        | true =>
          exfalso
          apply hnot
          unfold featureAllows
          rw [hl]
          exact htv
    · rintro ⟨v, hv, hfalse⟩ hall
      unfold featureAllows at hall
      rw [hv] at hall
      have h3 : v.truthy = true := hall
      rw [hfalse] at h3
      exact absurd h3 (by decide)

/-- Witness for C10: an empty feature set (no `name` entry) still lets the
name line through for opponent `Magnus`, and a feature set explicitly
mapping `name` to the falsy `0` suppresses it. -/
theorem xboard_name_feature_fail_open_witness :
    (∃ x, ("name " ++ x) ∈ XBoardEngine.get_opponent_info []
      ⟨⟨none, none, none⟩, ⟨some "Magnus", none, none⟩, 0, 0⟩)
    ∧ ¬ (∃ x, ("name " ++ x) ∈ XBoardEngine.get_opponent_info
      [("name", FeatureValue.int 0)]
      ⟨⟨none, none, none⟩, ⟨some "Magnus", none, none⟩, 0, 0⟩) :=
  ⟨(xboard_name_feature_fail_open []
      ⟨⟨none, none, none⟩, ⟨some "Magnus", none, none⟩, 0, 0⟩ "Magnus"
      rfl (by decide)).1 rfl,
    (xboard_name_feature_fail_open [("name", FeatureValue.int 0)]
      ⟨⟨none, none, none⟩, ⟨some "Magnus", none, none⟩, 0, 0⟩ "Magnus"
      rfl (by decide)).2.mpr ⟨FeatureValue.int 0, rfl, rfl⟩⟩

/-- When every advertised tablebase type has a caller-supplied path, the
`egtpath` loop succeeds and produces exactly one entry per advertised type,
carrying the caller's path. -/
theorem egtExtra_spec (egt_paths : List (String × String)) :
    ∀ ts : List String,
      (∀ t ∈ ts, (lookupS egt_paths t).isSome = true) →
      ∃ extra, egtExtra egt_paths ts = some extra
        ∧ ∀ t p, (("egtpath " ++ t, p) ∈ extra
            ↔ t ∈ ts ∧ lookupS egt_paths t = some p)
  | [], _ => ⟨[], rfl, by simp⟩
  | t :: ts, h => by
    obtain ⟨w, hw⟩ := Option.isSome_iff_exists.mp (h t (by simp))
    obtain ⟨extra, hex, hiff⟩ :=
      egtExtra_spec egt_paths ts (fun a ha => h a (by simp [ha]))
    refine ⟨("egtpath " ++ t, w) :: extra, ?_, ?_⟩
    · simp [egtExtra, hw, hex]
    · intro u p
      constructor
      · intro hmem
        rcases List.mem_cons.mp hmem with heq | hmem2
        · have h1 : "egtpath " ++ u = "egtpath " ++ t := congrArg Prod.fst heq
          have hu : u = t := str_append_left_cancel h1
          have hp : p = w := congrArg Prod.snd heq
          subst hu
          subst hp
          exact ⟨by simp, hw⟩
        · obtain ⟨hmem3, hlk⟩ := (hiff u p).mp hmem2
          exact ⟨by simp [hmem3], hlk⟩
      · rintro ⟨hmem, hlk⟩
        rcases List.mem_cons.mp hmem with heq | hmem2
        · subst heq
          have hp : p = w := by
            rw [hw] at hlk
            exact (Option.some_inj.mp hlk).symm
          subst hp
          exact List.mem_cons.mpr (Or.inl rfl)
        · exact List.mem_cons.mpr (Or.inr ((hiff u p).mpr ⟨hmem2, hlk⟩))

/-- Counterexample to C7 as stated: an engine advertising the `syzygy`
tablebase type while the caller's `egtpath` mapping is empty makes
construction fail (`KeyError`), so no `egtpath syzygy` entry — and indeed no
configure call at all — is forwarded despite the type being advertised. -/
theorem xboard_egt_missing_path_raises :
    egtTypesFromEngine [("egt", FeatureValue.str "syzygy")] = some ["syzygy"]
    ∧ xboardInitOptions [("egt", FeatureValue.str "syzygy")] [] [] = none :=
  ⟨rfl, rfl⟩

/-- C7 (amended): provided every engine-advertised tablebase type has an
entry in the caller's `egtpath` mapping, XBoard construction forwards the
caller options extended with an `egtpath <type>` entry mapped to the
caller's path exactly for the advertised types (a type in the caller
mapping but not advertised produces no entry), and an engine advertising
no `egt` feature at all produces no `egtpath` entries and no error; an
advertised type missing from the caller mapping instead aborts construction
with a key-lookup error. -/
theorem xboard_egt_options_spec (features : List (String × FeatureValue))
    (egt_paths : List (String × String)) (rest : List (String × String))
    (ts : List String) (hts : egtTypesFromEngine features = some ts)
    (hpaths : ∀ t ∈ ts, (lookupS egt_paths t).isSome = true) :
    ∃ extra, xboardInitOptions features egt_paths rest = some (rest ++ extra)
      ∧ (∀ t p, (("egtpath " ++ t, p) ∈ extra
          ↔ t ∈ ts ∧ lookupS egt_paths t = some p))
      ∧ (lookupF features "egt" = none → extra = []) := by
  obtain ⟨extra, hex, hiff⟩ := egtExtra_spec egt_paths ts hpaths
  refine ⟨extra, ?_, hiff, ?_⟩
  · unfold xboardInitOptions
    rw [hts]
    show (match egtExtra egt_paths ts with
      | none => none
      | some extra => some (rest ++ extra)) = some (rest ++ extra)
    rw [hex]
  · intro hnone
    have hempty : egtTypesFromEngine features = some [] := by
      unfold egtTypesFromEngine
      rw [hnone]
    rw [hts] at hempty
    have hts0 : ts = [] := Option.some_inj.mp hempty
    subst hts0
    have : (some [] : Option (List (String × String))) = some extra := hex
    exact (Option.some_inj.mp this).symm

/-- Witness for C7 (amended): an engine advertising `syzygy,gaviota` with
both paths supplied gets exactly those two `egtpath` entries appended to the
remaining options. -/
theorem xboard_egt_options_spec_witness :
    ∃ extra, xboardInitOptions [("egt", FeatureValue.str "syzygy,gaviota")]
        [("syzygy", "tb/syzygy"), ("gaviota", "tb/gaviota")] [("memory", "32")]
        = some ([("memory", "32")] ++ extra)
      ∧ (∀ t p, (("egtpath " ++ t, p) ∈ extra
          ↔ t ∈ ["syzygy", "gaviota"]
            ∧ lookupS [("syzygy", "tb/syzygy"), ("gaviota", "tb/gaviota")] t
                = some p))
      ∧ (lookupF [("egt", FeatureValue.str "syzygy,gaviota")] "egt" = none
          → extra = []) :=
  xboard_egt_options_spec [("egt", FeatureValue.str "syzygy,gaviota")]
    [("syzygy", "tb/syzygy"), ("gaviota", "tb/gaviota")] [("memory", "32")]
    ["syzygy", "gaviota"] (by decide) (by decide)

/-- Counterexample to C8 as stated: with the optional `engine.protocol` key
absent, `create_engine` does not construct the structured adapter (or any
adapter); the source raises `TypeError` evaluating `None + "_options"`. -/
theorem create_engine_missing_protocol :
    ¬ ∃ spec, create_engine (fun _ => false)
        ⟨"engines", "stockfish", none, [], false,
          [("uci_options", [("Threads", "4")])]⟩ = some spec := by
  rintro ⟨spec, h⟩
  exact Option.noConfusion
    ((rfl : create_engine (fun _ => false)
        ⟨"engines", "stockfish", none, [], false,
          [("uci_options", [("Threads", "4")])]⟩ = none).symm.trans h)

/-- C8 (amended): for every configuration whose `engine.protocol` key is
present, `create_engine` constructs the XBoard adapter exactly when the
protocol equals `"xboard"` and the UCI adapter for any other value, from the
command vector `[dir/name, "--key=value"…]` and the managed-option-filtered
contents of the `"<protocol>_options"` block (absent block → empty); when
the optional key is absent, construction fails (`TypeError` composing the
block name) instead of defaulting to the structured adapter. -/
theorem create_engine_protocol_selection (is_managed : String → Bool)
    (cfg : EngineCfg) :
    (∀ p, cfg.protocol = some p →
      create_engine is_managed cfg
        = some ⟨if p = "xboard" then EngineKind.xboard else EngineKind.uci,
            joinPath cfg.dir cfg.name
              :: cfg.engine_options.map (fun kv => "--" ++ kv.1 ++ "=" ++ kv.2),
            remove_managed_options is_managed
              ((lookupBlock cfg.option_blocks (p ++ "_options")).getD []),
            cfg.silence_stderr⟩)
    ∧ (cfg.protocol = none → create_engine is_managed cfg = none) := by
  constructor
  · intro p hp
    unfold create_engine
    rw [hp]
  · intro hp
    unfold create_engine
    rw [hp]

/-- Witness for C8 (amended): a present `"xboard"` protocol yields the
XBoard adapter with the composed command vector and the `xboard_options`
block. -/
theorem create_engine_protocol_selection_witness :
    create_engine (fun _ => false)
        ⟨"engines", "stockfish", some "xboard", [("arg", "1")], true,
          [("xboard_options", [("memory", "32")])]⟩
      = some ⟨EngineKind.xboard, ["engines/stockfish", "--arg=1"],
          [("memory", "32")], true⟩ := by
  have h := (create_engine_protocol_selection (fun _ => false)
    ⟨"engines", "stockfish", some "xboard", [("arg", "1")], true,
      [("xboard_options", [("memory", "32")])]⟩).1 "xboard" rfl
  rw [h]
  decide
